import Mathlib

/-!
Verification of the FVM default kernel (`fvm/src/kernel/default.rs`) against its
specification.  The Rust source is shallowly embedded: machine integers become
`Nat` (with explicit bounds where wrapping matters), fallible operations return
`Except`, the state owned by the `CallManager` (state tree, gas tracker, event
accumulator) is threaded explicitly, and external collaborators (the callee of
`call_actor`, native proof libraries, the block store) are oracles passed as
function parameters.
-/

deriving instance DecidableEq for Except

/-- Syscall error numbers (`fvm_shared::error::ErrorNumber`). -/
inductive ErrorNumber
  | illegalArgument
  | illegalOperation
  | illegalCodec
  | illegalCid
  | notFound
  | forbidden
  | limitExceeded
  | readOnly
  | assertionFailed
  | serialization
deriving DecidableEq, Repr

/-- Kernel-level failure channels: classified syscall errors, gas exhaustion,
and fatal errors (store corruption and the like). -/
inductive KError
  | syscall (e : ErrorNumber)
  | outOfGas
  | fatal
deriving DecidableEq, Repr

/-- Actor state record (`state_tree::ActorState`): code CID, state CID,
balance, sequence number and optional delegated address.  CIDs and addresses
are modelled as naturals. -/
structure ActorState where
  code : Nat
  state : Nat
  balance : Nat
  sequence : Nat
  delegated_address : Option Nat
deriving DecidableEq, Repr

/-- An IPLD block held by the registry: codec, raw data bytes and the CIDs of
its children (`kernel::blocks::Block`). -/
structure Block where
  codec : Nat
  data : List Nat
  children : List Nat
deriving DecidableEq, Repr

/-- Codec and size pair returned by `block_stat`. -/
structure BlockStat where
  codec : Nat
  size : Nat
deriving DecidableEq, Repr

/-- Stat of a block: its codec together with its size in bytes. -/
def Block.stat (b : Block) : BlockStat :=
  ⟨b.codec, b.data.length⟩

/-- Modelled from the spec: the `BlockRegistry` of `kernel::blocks` (the file
itself is outside the source snapshot).  Handles are small positive integers
handed out sequentially, `0` is reserved for "no block", the registry has a
bounded capacity, and it tracks the set of reachable CIDs. -/
structure BlockRegistry where
  blocks : List Block
  capacity : Nat
  reachable : List Nat
deriving DecidableEq, Repr

/-- Reserved block handle meaning "no block" (`NO_DATA_BLOCK_ID`). -/
def NO_DATA_BLOCK_ID : Nat := 0

/-- Modelled from the spec: registry lookup of a handle; handle `i ≥ 1` names
the `i`-th inserted block, anything else is an invalid-handle error
(classified `IllegalArgument`). -/
def BlockRegistry.get (r : BlockRegistry) (id : Nat) : Except KError Block :=
  if id = 0 then .error (.syscall .illegalArgument)
  else
    match r.blocks.get? (id - 1) with
    | some b => .ok b
    | none => .error (.syscall .illegalArgument)

/-- Modelled from the spec: the registry is full once it holds `capacity`
blocks. -/
def BlockRegistry.isFull (r : BlockRegistry) : Bool :=
  r.blocks.length ≥ r.capacity

/-- Modelled from the spec: insert an already-validated block, failing with
`LimitExceeded` when the registry is at capacity; returns the fresh handle. -/
def BlockRegistry.putReachable (r : BlockRegistry) (b : Block) :
    Except KError (Nat × BlockRegistry) :=
  if r.blocks.length ≥ r.capacity then .error (.syscall .limitExceeded)
  else .ok (r.blocks.length + 1, { r with blocks := r.blocks ++ [b] })

/-- Modelled from the spec: record a CID as reachable. -/
def BlockRegistry.markReachable (r : BlockRegistry) (c : Nat) : BlockRegistry :=
  { r with reachable := c :: r.reachable }

/-- A single entry of a structured event (`fvm_shared::event::Entry`). -/
structure Entry where
  flags : Nat
  key : List Nat
  codec : Nat
  value : List Nat
deriving DecidableEq, Repr

/-- An event stamped with the ID of the emitting actor. -/
structure StampedEvent where
  emitter : Nat
  entries : List Entry
deriving DecidableEq, Repr

/-- The state owned by the `CallManager` as far as the kernel observes it:
the actor table (state tree), the remaining gas of the shared gas tracker, and
the accumulated events. -/
structure CMState where
  actors : List (Nat × ActorState)
  gas : Nat
  events : List StampedEvent
deriving DecidableEq, Repr

/-- Charge `cost` gas against the tracker; `none` models gas exhaustion. -/
def chargeGas (s : CMState) (cost : Nat) : Option CMState :=
  if cost ≤ s.gas then some { s with gas := s.gas - cost } else none

/-- Update or insert the binding of `id` in an actor table. -/
def setAssoc : List (Nat × ActorState) → Nat → ActorState → List (Nat × ActorState)
  | [], id, st => [(id, st)]
  | (i, a) :: rest, id, st =>
      if i = id then (id, st) :: rest else (i, a) :: setAssoc rest id st

/-- Remove the binding of `id` from an actor table. -/
def delAssoc : List (Nat × ActorState) → Nat → List (Nat × ActorState)
  | [], _ => []
  | (i, a) :: rest, id => if i = id then rest else (i, a) :: delAssoc rest id

/-- `CallManager::get_actor`: `none` when the actor does not exist. -/
def getActor (s : CMState) (id : Nat) : Option ActorState :=
  (s.actors.find? (fun p => p.1 == id)).map (fun p => p.2)

/-- `CallManager::set_actor`. -/
def setActor (s : CMState) (id : Nat) (st : ActorState) : CMState :=
  { s with actors := setAssoc s.actors id st }

/-- `CallManager::delete_actor`. -/
def deleteActor (s : CMState) (id : Nat) : CMState :=
  { s with actors := delAssoc s.actors id }

/-- Modelled from the spec: `CallManager::transfer` moves `amt` from one
existing actor to another, `none` on failure (the kernel treats that as
fatal). -/
def transfer (s : CMState) (fromId toId amt : Nat) : Option CMState :=
  match getActor s fromId, getActor s toId with
  | some f, some t =>
      if amt ≤ f.balance then
        some (setActor (setActor s fromId { f with balance := f.balance - amt })
          toId { t with balance := t.balance + amt })
      else none
  | _, _ => none

/-- The per-invocation kernel (`DefaultKernel`): message context fields, the
read-only flag, the borrowed call-manager state and the private block
registry. -/
structure Kernel where
  caller : Nat
  actor_id : Nat
  method : Nat
  value_received : Nat
  read_only : Bool
  cm : CMState
  blocks : BlockRegistry
deriving DecidableEq, Repr

/-- Well-known ID of the Init actor (`INIT_ACTOR_ID`). -/
def INIT_ACTOR_ID : Nat := 1

/-- Well-known ID of the burnt-funds actor (`BURNT_FUNDS_ACTOR_ID`). -/
def BURNT_FUNDS_ACTOR_ID : Nat := 99

/-- Multihash code of blake2b-256 (`BLAKE2B_256 = 0xb220`). -/
def BLAKE2B_256 : Nat := 0xb220

/-- The raw IPLD codec (`IPLD_RAW = 0x55`). -/
def IPLD_RAW : Nat := 0x55

/-- Call-stack entrypoint names (`INVOKE_FUNC_NAME` / `UPGRADE_FUNC_NAME`). -/
inductive FuncName
  | invoke
  | upgrade
deriving DecidableEq, Repr

/-- Entrypoints of a cross-actor call (`call_manager::Entrypoint`). -/
inductive Entrypoint
  | invoke (method : Nat)
  | upgrade (old_code_cid : Nat)
deriving DecidableEq, Repr

/-- Result of invoking an actor (`call_manager::InvocationResult`). -/
structure InvocationResult where
  exit_code : Nat
  value : Option Block
deriving DecidableEq, Repr

/-- Result returned to the guest by `send` and `upgrade_actor`
(`kernel::CallResult`). -/
structure CallResult where
  block_id : Nat
  block_stat : BlockStat
  exit_code : Nat
deriving DecidableEq, Repr

/-- Oracle standing for `CallManager::call_actor` inside a transaction:
arguments are from-ID, to-ID, entrypoint, optional parameter block, value,
optional gas limit, the effective read-only flag and the call-manager state;
it yields an invocation result and an updated state, or an error. -/
abbrev CallOracle :=
  Nat → Nat → Entrypoint → Option Block → Nat → Option Nat → Bool → CMState →
    Except KError (InvocationResult × CMState)

/-- Load the parameter block for `send`/`upgrade_actor`: the reserved zero
handle means no parameters, any other handle is looked up in the registry. -/
def loadParams (k : Kernel) (id : Nat) : Except KError (Option Block) :=
  if id = NO_DATA_BLOCK_ID then .ok none
  else (k.blocks.get id).map some

/-- The `send` syscall (`DefaultKernel::send`).  Computes the effective
read-only flag, rejects value transfer under read-only, loads parameters,
checks registry capacity, then calls the recipient inside a transaction;
`call_actor` is the `call` oracle.  Transaction rollback is modelled by
returning the original kernel on error. -/
def send (call : CallOracle) (k : Kernel) (recipient method paramsId value : Nat)
    (gasLimit : Option Nat) (flagsReadOnly : Bool) :
    Except KError CallResult × Kernel :=
  let fromId := k.actor_id
  let readOnly := k.read_only || flagsReadOnly
  if readOnly ∧ value ≠ 0 then (.error (.syscall .readOnly), k)
  else
    match loadParams k paramsId with
    | .error e => (.error e, k)
    | .ok params =>
      if k.blocks.isFull then (.error (.syscall .limitExceeded), k)
      else
        match call fromId recipient (.invoke method) params value gasLimit readOnly k.cm with
        | .error e => (.error e, k)
        | .ok (res, cm2) =>
          match res.value with
          | some blk =>
            match k.blocks.putReachable blk with
            | .error _ => (.error .fatal, { k with cm := cm2 })
            | .ok (bid, blocks2) =>
                (.ok ⟨bid, blk.stat, res.exit_code⟩, { k with cm := cm2, blocks := blocks2 })
          | none => (.ok ⟨0, ⟨0, 0⟩, res.exit_code⟩, { k with cm := cm2 })

/-- Tail of the call-stack check of `upgrade_actor`: after the first
`(self, INVOKE)` frame, every remaining frame must be `(self, UPGRADE)`. -/
def checkAfter (self : Nat) : List (Nat × FuncName) → Bool
  | [] => true
  | (a, f) :: rest => (a == self && f == FuncName.upgrade) && checkAfter self rest

/-- Call-stack rule of `upgrade_actor`: find the first `(self, INVOKE)` frame;
if it exists, all later frames must be `(self, UPGRADE)`. -/
def upgradeStackOk (self : Nat) : List (Nat × FuncName) → Bool
  | [] => true
  | (a, f) :: rest =>
      if a == self && f == FuncName.invoke then checkAfter self rest
      else upgradeStackOk self rest

/-- The `upgrade_actor` syscall (`DefaultKernel::upgrade_actor`): read-only
check, re-entrancy check over the ancestor call stack, parameter loading,
registry-capacity check, then a transaction that swaps the actor's code CID
to `newCodeCid` (dropping any delegated address) before invoking the upgrade
entrypoint with the old code CID, value 0, no gas limit, not read-only,
original caller, and the actor itself as receiver.  On transaction error the
pre-transaction kernel is returned (rollback). -/
def upgrade_actor (call : CallOracle) (k : Kernel) (stack : List (Nat × FuncName))
    (newCodeCid paramsId : Nat) : Except KError CallResult × Kernel :=
  if k.read_only then (.error (.syscall .readOnly), k)
  else if ¬ upgradeStackOk k.actor_id stack then (.error (.syscall .forbidden), k)
  else
    match loadParams k paramsId with
    | .error e => (.error e, k)
    | .ok params =>
      if k.blocks.isFull then (.error (.syscall .limitExceeded), k)
      else
        let txn : Except KError (InvocationResult × CMState) :=
          match getActor k.cm k.actor_id with
          | none => .error (.syscall .illegalOperation)
          | some st =>
            let code := st.code
            let cm1 := setActor k.cm k.actor_id
              ⟨newCodeCid, st.state, st.balance, st.sequence, none⟩
            call k.caller k.actor_id (.upgrade code) params 0 none false cm1
        match txn with
        | .error e => (.error e, k)
        | .ok (res, cm2) =>
          match res.value with
          | none => (.ok ⟨NO_DATA_BLOCK_ID, ⟨0, 0⟩, res.exit_code⟩, { k with cm := cm2 })
          | some blk =>
            match k.blocks.putReachable blk with
            | .error e => (.error e, { k with cm := cm2 })
            | .ok (bid, blocks2) =>
                (.ok ⟨bid, blk.stat, res.exit_code⟩, { k with cm := cm2, blocks := blocks2 })

/-- The `create_actor` syscall (`DefaultKernel::create_actor`): only the Init
actor may call it (`Forbidden` otherwise), then the read-only check, then
delegation to the call manager (the `cmCreate` oracle). -/
def create_actor (cmCreate : Nat → Nat → Option Nat → CMState → Except KError CMState)
    (k : Kernel) (codeId actorId : Nat) (delegated : Option Nat) :
    Except KError Kernel :=
  if ¬ (k.actor_id = INIT_ACTOR_ID) then .error (.syscall .forbidden)
  else if k.read_only then .error (.syscall .readOnly)
  else
    match cmCreate codeId actorId delegated k.cm with
    | .error e => .error e
    | .ok cm2 => .ok { k with cm := cm2 }

/-- The `set_root` syscall (`DefaultKernel::set_root`): read-only check,
gas charge for `on_set_root`, reachability check of the new root, then the
state-CID update through the call manager. -/
def set_root (cost : Nat) (k : Kernel) (new : Nat) : Except KError Kernel :=
  if k.read_only then .error (.syscall .readOnly)
  else
    match chargeGas k.cm cost with
    | none => .error .outOfGas
    | some cm1 =>
      if ¬ k.blocks.reachable.contains new then .error (.syscall .notFound)
      else
        match getActor cm1 k.actor_id with
        | none => .error (.syscall .illegalOperation)
        | some st => .ok { k with cm := setActor cm1 k.actor_id { st with state := new } }

/-- The `self_destruct` syscall (`DefaultKernel::self_destruct`): read-only
check, gas for `on_delete_actor`, balance query (which itself charges
`on_self_balance`), the unspent-funds rule with burning to the burnt-funds
actor, and finally deletion of the executing actor. -/
def self_destruct (costDelete costBalance : Nat) (k : Kernel) (burnUnspent : Bool) :
    Except KError Kernel :=
  if k.read_only then .error (.syscall .readOnly)
  else
    match chargeGas k.cm costDelete with
    | none => .error .outOfGas
    | some cm1 =>
      match chargeGas cm1 costBalance with
      | none => .error .outOfGas
      | some cm2 =>
        let balance := ((getActor cm2 k.actor_id).map (fun a => a.balance)).getD 0
        if balance ≠ 0 then
          if ¬ burnUnspent then .error (.syscall .illegalOperation)
          else
            match transfer cm2 k.actor_id BURNT_FUNDS_ACTOR_ID balance with
            | none => .error .fatal
            | some cm3 => .ok { k with cm := deleteActor cm3 k.actor_id }
        else .ok { k with cm := deleteActor cm2 k.actor_id }

/-- Conversion `i32::try_from` on a non-negative quantity: succeeds exactly
when the value is at most `i32::MAX = 2^31 - 1`. -/
def i32TryFrom (n : Nat) : Option Nat :=
  if n ≤ 2147483647 then some n else none

/-- Wrapping `as i32` cast of a length (`data.len() as i32`). -/
def i32OfNatWrap (n : Nat) : Int :=
  ((n : Int) + 2 ^ 31) % 2 ^ 32 - 2 ^ 31

/-- The `block_read` syscall (`DefaultKernel::block_read`): check that
`offset + buf.len()` fits an `i32`, look up the block, compute the number of
bytes to read with saturating subtraction, charge `on_block_read` over that
count (`costFn`), copy into the buffer, and return the difference between the
block length and the logical end.  Returns the value and the updated buffer
and kernel. -/
def block_read (costFn : Nat → Nat) (k : Kernel) (id offset : Nat) (buf : List Nat) :
    Except KError (Int × List Nat × Kernel) :=
  match i32TryFrom (offset + buf.length) with
  | none => .error (.syscall .illegalArgument)
  | some endPos =>
    match k.blocks.get id with
    | .error e => .error e
    | .ok block =>
      let data := block.data
      let start := offset
      let toRead := min (data.length - start) buf.length
      match chargeGas k.cm (costFn toRead) with
      | none => .error .outOfGas
      | some cm1 =>
        let buf2 :=
          if toRead ≠ 0 then (data.drop start).take toRead ++ buf.drop toRead else buf
        .ok (i32OfNatWrap data.length - (endPos : Int), buf2, { k with cm := cm1 })

/-- The `block_link` syscall (`DefaultKernel::block_link`): reject any hash
function other than blake2b-256 or length other than 32 with `IllegalCid`,
look up the block, charge `on_block_link`, hash the data with the `digest`
oracle (`SupportedHashes::digest`, outside the snapshot), reject a digest
shorter than the requested length with `IllegalCid`, build the CIDv1 with the
`mkCid` oracle over the block's codec and the truncated digest, persist via
the store (`putOk` oracle; failure is fatal), and mark the CID reachable. -/
def block_link (digest : List Nat → List Nat) (mkCid : Nat → List Nat → Nat)
    (putOk : Bool) (costFn : Nat → Nat) (k : Kernel) (id hashFun hashLen : Nat) :
    Except KError (Nat × Kernel) :=
  if hashFun ≠ BLAKE2B_256 ∨ hashLen ≠ 32 then .error (.syscall .illegalCid)
  else
    match k.blocks.get id with
    | .error e => .error e
    | .ok block =>
      match chargeGas k.cm (costFn block.data.length) with
      | none => .error .outOfGas
      | some cm1 =>
        let hash := digest block.data
        if hash.length < hashLen then .error (.syscall .illegalCid)
        else
          let cid := mkCid block.codec (hash.take hashLen)
          if putOk = false then .error .fatal
          else .ok (cid, { k with cm := cm1, blocks := k.blocks.markReachable cid })

/-- A UTF-8 continuation byte (`0x80 ..= 0xBF`). -/
def contByte (b : Nat) : Bool := 0x80 ≤ b && b < 0xC0

/-- UTF-8 validity of a byte sequence, as checked by
`std::str::from_utf8`: ASCII bytes stand alone, two-byte heads `C2..DF`,
three-byte heads `E0`/`E1..EC,EE,EF`/`ED` with their restricted second bytes,
and four-byte heads `F0`/`F1..F3`/`F4` with theirs. -/
def isUtf8 : List Nat → Bool
  | [] => true
  | b :: rest =>
    if b < 0x80 then isUtf8 rest
    else if 0xC2 ≤ b && b ≤ 0xDF then
      match rest with
      | c1 :: r => contByte c1 && isUtf8 r
      | [] => false
    else if b = 0xE0 then
      match rest with
      | c1 :: c2 :: r => (0xA0 ≤ c1 && c1 ≤ 0xBF) && contByte c2 && isUtf8 r
      | _ => false
    else if (0xE1 ≤ b && b ≤ 0xEC) || b = 0xEE || b = 0xEF then
      match rest with
      | c1 :: c2 :: r => contByte c1 && contByte c2 && isUtf8 r
      | _ => false
    else if b = 0xED then
      match rest with
      | c1 :: c2 :: r => (0x80 ≤ c1 && c1 ≤ 0x9F) && contByte c2 && isUtf8 r
      | _ => false
    else if b = 0xF0 then
      match rest with
      | c1 :: c2 :: c3 :: r => (0x90 ≤ c1 && c1 ≤ 0xBF) && contByte c2 && contByte c3 && isUtf8 r
      | _ => false
    else if 0xF1 ≤ b && b ≤ 0xF3 then
      match rest with
      | c1 :: c2 :: c3 :: r => contByte c1 && contByte c2 && contByte c3 && isUtf8 r
      | _ => false
    else if b = 0xF4 then
      match rest with
      | c1 :: c2 :: c3 :: r => (0x80 ≤ c1 && c1 ≤ 0x8F) && contByte c2 && contByte c3 && isUtf8 r
      | _ => false
    else false

/-- Rust's `str::is_char_boundary` on the underlying bytes: index 0 and the
end are boundaries, any other in-range index is a boundary exactly when the
byte there is not a continuation byte; past-the-end indices are not. -/
def isCharBoundary (s : List Nat) (i : Nat) : Bool :=
  if i = 0 then true
  else
    match s.get? i with
    | none => i == s.length
    | some b => ! contByte b

/-- Rust's `str::get(a..b)`: the sub-slice when both endpoints are char
boundaries (in particular in range) and `a ≤ b`, otherwise `None`. -/
def strGet (s : List Nat) (a b : Nat) : Option (List Nat) :=
  if a ≤ b ∧ isCharBoundary s a ∧ isCharBoundary s b then
    some ((s.drop a).take (b - a))
  else none

/-- Rust's `[u8]::get(a..b)`: plain bounds-checked sub-slice. -/
def sliceGet (s : List Nat) (a b : Nat) : Option (List Nat) :=
  if a ≤ b ∧ b ≤ s.length then some ((s.drop a).take (b - a)) else none

/-- Modelled from the spec: `fvm_shared::event::Flags::from_bits` (outside the
snapshot) recognizes exactly the two indexing bits, so a flags word is valid
when no bit above the low two is set. -/
def eventFlagsValid (f : Nat) : Bool := f < 4

/-- One serialized event header (`fvm_shared::sys::EventEntry`): flags, codec
and the byte lengths of the key and of the value. -/
structure EventEntry where
  flags : Nat
  codec : Nat
  key_len : Nat
  val_len : Nat
deriving DecidableEq, Repr

/-- The per-header loop of `emit_event`: validate flags, key length (≤ 31,
`LimitExceeded`), value length (≤ total-values bound, `IllegalArgument`, an
overflow precondition), slice the key out of the UTF-8 `keys` string by char
boundary and the value out of `values` by bounds, require the `IPLD_RAW`
codec, and accumulate entries while advancing both offsets. -/
def processHeaders (keys values : List Nat) :
    List EventEntry → Nat → Nat → Except KError (List Entry × Nat × Nat)
  | [], keyOff, valOff => .ok ([], keyOff, valOff)
  | h :: rest, keyOff, valOff =>
    if ¬ eventFlagsValid h.flags then .error (.syscall .illegalArgument)
    else if h.key_len > 31 then .error (.syscall .limitExceeded)
    else if h.val_len > 8192 then .error (.syscall .illegalArgument)
    else
      match strGet keys keyOff (keyOff + h.key_len) with
      | none => .error (.syscall .illegalArgument)
      | some key =>
        match sliceGet values valOff (valOff + h.val_len) with
        | none => .error (.syscall .illegalArgument)
        | some value =>
          if h.codec ≠ IPLD_RAW then .error (.syscall .illegalCodec)
          else
            match processHeaders keys values rest (keyOff + h.key_len) (valOff + h.val_len) with
            | .error e => .error e
            | .ok (es, ko, vo) => .ok (⟨h.flags, key, h.codec, value⟩ :: es, ko, vo)

/-- The `emit_event` syscall (`DefaultKernel::emit_event`): read-only check,
gas charge for `on_actor_event` (`cost`), the 255-entry and 8 KiB total-value
limits, whole-buffer UTF-8 validation of `keys`, the per-header loop, the
exhaustion checks on both buffers, and finally appending the stamped event. -/
def emit_event (cost : Nat) (k : Kernel) (headers : List EventEntry)
    (keys values : List Nat) : Except KError Kernel :=
  if k.read_only then .error (.syscall .readOnly)
  else
    match chargeGas k.cm cost with
    | none => .error .outOfGas
    | some cm1 =>
      if headers.length > 255 then .error (.syscall .limitExceeded)
      else if values.length > 8192 then .error (.syscall .limitExceeded)
      else if ¬ isUtf8 keys then .error (.syscall .illegalArgument)
      else
        match processHeaders keys values headers 0 0 with
        | .error e => .error e
        | .ok (entries, keyOff, valOff) =>
          if keyOff ≠ keys.length then .error (.syscall .illegalArgument)
          else if valOff ≠ values.length then .error (.syscall .illegalArgument)
          else
            .ok { k with cm :=
              { cm1 with events := cm1.events ++ [⟨k.actor_id, entries⟩] } }

/-- Maximum value of `usize` on the 64-bit target. -/
def USIZE_MAX : Nat := 2 ^ 64 - 1

/-- The plaintext-slicing loop of `verify_bls_aggregate`: walk the length
list, extending the running offset with `checked_add` (overflow is
`IllegalArgument`) and taking each span out of the concatenated buffer with a
bounds check (`IllegalArgument` when out of bounds); returns the spans and
the final offset. -/
def slicePlaintexts (concat : List Nat) : Nat → List Nat →
    Except KError (List (List Nat) × Nat)
  | offset, [] => .ok ([], offset)
  | offset, len :: rest =>
    let start := offset
    if start + len > USIZE_MAX then .error (.syscall .illegalArgument)
    else
      let offset2 := start + len
      if offset2 ≤ concat.length then
        match slicePlaintexts concat offset2 rest with
        | .error e => .error e
        | .ok (ps, fin) => .ok ((concat.drop start).take len :: ps, fin)
      else .error (.syscall .illegalArgument)

/-- The `verify_bls_aggregate` syscall (`DefaultKernel::verify_bls_aggregate`):
equal counts of public keys and plaintext lengths (`IllegalArgument`), gas
charge for `on_verify_aggregate_signature` (`cost`), slicing of the
concatenated plaintexts, exact exhaustion of the buffer, then the library
verification (`lib` oracle) whose error is swallowed into `false`. -/
def verify_bls_aggregate (cost : Nat)
    (lib : List Nat → List (List Nat) → List (List Nat) → Except Unit Bool)
    (k : Kernel) (aggregateSig : List Nat) (pubKeys : List (List Nat))
    (plaintextsConcat : List Nat) (plaintextLens : List Nat) :
    Except KError (Bool × Kernel) :=
  if pubKeys.length ≠ plaintextLens.length then .error (.syscall .illegalArgument)
  else
    match chargeGas k.cm cost with
    | none => .error .outOfGas
    | some cm1 =>
      match slicePlaintexts plaintextsConcat 0 plaintextLens with
      | .error e => .error e
      | .ok (plaintexts, offset) =>
        if offset ≠ plaintextsConcat.length then .error (.syscall .illegalArgument)
        else
          .ok (match lib aggregateSig pubKeys plaintexts with
               | .ok b => b
               | .error _ => false,
               { k with cm := cm1 })

/-- Outcome of one native seal verification under the panic barrier: a normal
boolean result, a library-level error, or a panic caught by
`catch_unwind`.  Modelled from the spec: the native library itself is outside
the snapshot, so it is an oracle producing one of these. -/
inductive SealOutcome
  | ok (b : Bool)
  | libError
  | panic
deriving DecidableEq, Repr

/-- How `batch_verify_seals` folds one verification outcome into the result
vector: a clean result passes through, a library failure and a caught panic
both become `false`. -/
def sealOutcomeToBool : SealOutcome → Bool
  | .ok b => b
  | .libError => false
  | .panic => false

/-- The pre-charge loop of `batch_verify_seals`: charge `on_verify_seal` for
every entry (via `costFn`) before any verification, collecting the work
items. -/
def preCharge (costFn : Nat → Nat) : List Nat → CMState →
    Except KError (List Nat × CMState)
  | [], s => .ok ([], s)
  | vi :: rest, s =>
    match chargeGas s (costFn vi) with
    | none => .error .outOfGas
    | some s1 =>
      match preCharge costFn rest s1 with
      | .error e => .error e
      | .ok (items, s2) => .ok (vi :: items, s2)

/-- The `batch_verify_seals` syscall (`DefaultKernel::batch_verify_seals`):
pre-charge gas for every input, then verify each item (in input order) under
the panic barrier, mapping panics and library failures to `false`.  Seal
verify infos are opaque here (`Nat` identifiers) and the native verification
is the `verify` oracle. -/
def batch_verify_seals (verify : Nat → SealOutcome) (costFn : Nat → Nat)
    (k : Kernel) (vis : List Nat) : Except KError (List Bool × Kernel) :=
  match preCharge costFn vis k.cm with
  | .error e => .error e
  | .ok (items, cm1) =>
      .ok (items.map (fun vi => sealOutcomeToBool (verify vi)), { k with cm := cm1 })

/-- Number of trailing zero bits (`u64::trailing_zeros`); 64 on zero input. -/
def trailingZeros (n : Nat) : Nat :=
  if h : n = 0 then 64
  else if n % 2 = 1 then 0
  else trailingZeros (n / 2) + 1
decreasing_by exact Nat.div_lt_self (Nat.pos_of_ne_zero h) (by omega)

/-- Number of set bits (`u64::count_ones`). -/
def popCount (n : Nat) : Nat :=
  if n = 0 then 0
  else n % 2 + popCount (n / 2)
decreasing_by exact Nat.div_lt_self (Nat.pos_of_ne_zero (by assumption)) (by omega)

/-- The pad-collection loop of `get_required_padding`: `n` iterations, each
taking the lowest set bit of `toFill` as the next power-of-two pad, clearing
it with xor, and accumulating the total. -/
def padLoop : Nat → Nat → List Nat × Nat
  | 0, _ => ([], 0)
  | n + 1, toFill =>
    let next := trailingZeros toFill
    let pSize := 2 ^ next
    let toFill2 := toFill ^^^ pSize
    let (ps, s) := padLoop n toFill2
    (pSize :: ps, pSize + s)

/-- `get_required_padding` (helper of `compute_unsealed_sector_cid`): the
two's-complement of the already-placed length modulo the piece size, decomposed
into its set bits as power-of-two pads, smallest first, together with their
total. -/
def get_required_padding (oldLength newPieceLength : Nat) : List Nat × Nat :=
  let toFill := ((2 ^ 64 - oldLength % 2 ^ 64) % 2 ^ 64) % newPieceLength
  padLoop (popCount toFill) toFill

lemma i32OfNatWrap_eq_of_lt {n : Nat} (h : n < 2 ^ 31) : i32OfNatWrap n = (n : Int) := by
  unfold i32OfNatWrap
  have hn : (n : Int) < 2147483648 := by exact_mod_cast (by norm_num at h ⊢; omega : n < 2147483648)
  have e1 : (2 : Int) ^ 31 = 2147483648 := by norm_num
  have e2 : (2 : Int) ^ 32 = 4294967296 := by norm_num
  rw [e1, e2]
  omega

/-- C4.  `block_read` arithmetic: with a valid handle holding `L` bytes and
enough gas, the call fails `IllegalArgument` exactly when `offset + buflen`
overflows an `i32`; otherwise it copies exactly
`min(L - offset, buflen)` bytes (zero when the saturating difference is zero)
from `data[offset..]` into the start of the buffer and returns `L - (offset +
buflen)` as a (possibly negative) integer. -/
theorem block_read_arithmetic (costFn : Nat → Nat) (k : Kernel) (id offset : Nat)
    (buf : List Nat) (blk : Block)
    (hid : k.blocks.get id = .ok blk)
    (hL : blk.data.length < 2 ^ 31)
    (hgas : costFn (min (blk.data.length - offset) buf.length) ≤ k.cm.gas) :
    (offset + buf.length > 2147483647 →
      block_read costFn k id offset buf = .error (.syscall .illegalArgument))
  ∧ (offset + buf.length ≤ 2147483647 →
      block_read costFn k id offset buf =
        .ok ((blk.data.length : Int) - ((offset + buf.length : Nat) : Int),
             (blk.data.drop offset).take (min (blk.data.length - offset) buf.length)
               ++ buf.drop (min (blk.data.length - offset) buf.length),
             { k with cm := { k.cm with
                 gas := k.cm.gas - costFn (min (blk.data.length - offset) buf.length) } }))
  ∧ ((blk.data.drop offset).take (min (blk.data.length - offset) buf.length)).length
      = min (blk.data.length - offset) buf.length := by
  refine ⟨?_, ?_, ?_⟩
  · intro hov
    unfold block_read i32TryFrom
    rw [if_neg (by omega : ¬ offset + buf.length ≤ 2147483647)]
  · intro hle
    unfold block_read i32TryFrom
    rw [if_pos hle]
    simp only [hid]
    simp only [chargeGas, if_pos hgas]
    rw [i32OfNatWrap_eq_of_lt hL]
    by_cases h0 : min (blk.data.length - offset) buf.length = 0
    · simp [h0]
    · simp [h0]
  · simp only [List.length_take, List.length_drop]
    omega

/-- C4 witness: a 10-byte block read at offset 20 into a 4-byte buffer copies
nothing and returns −14. -/
theorem block_read_arithmetic_witness :
    block_read (fun _ => 1) ⟨2, 5, 1, 0, false, ⟨[(5, ⟨77, 88, 10, 3, some 4⟩)], 1000, []⟩,
        ⟨[⟨0x55, List.replicate 10 0, []⟩], 5, []⟩⟩ 1 20 [9, 9, 9, 9] =
      .ok (-14, [9, 9, 9, 9],
        ⟨2, 5, 1, 0, false, ⟨[(5, ⟨77, 88, 10, 3, some 4⟩)], 999, []⟩,
          ⟨[⟨0x55, List.replicate 10 0, []⟩], 5, []⟩⟩) := by
  have h := block_read_arithmetic (fun _ => 1)
    ⟨2, 5, 1, 0, false, ⟨[(5, ⟨77, 88, 10, 3, some 4⟩)], 1000, []⟩,
      ⟨[⟨0x55, List.replicate 10 0, []⟩], 5, []⟩⟩ 1 20 [9, 9, 9, 9]
    ⟨0x55, List.replicate 10 0, []⟩ rfl (by decide) (by decide)
  exact h.2.1 (by decide)

lemma checkAfter_eq_false {self : Nat} {post : List (Nat × FuncName)} {x : Nat × FuncName}
    (hx : x ∈ post) (hne : x ≠ (self, FuncName.upgrade)) :
    checkAfter self post = false := by
  induction post with
  | nil => cases hx
  | cons hd tl ih =>
    rcases List.mem_cons.mp hx with h | h
    · subst h
      obtain ⟨a, f⟩ := x
      have : (a == self && f == FuncName.upgrade) = false := by
        by_cases ha : a = self
        · subst ha
          have hf : f ≠ FuncName.upgrade := by
            intro hf; exact hne (by simp [hf])
          simp [hf]
        · simp [ha]
      simp [checkAfter, this]
    · obtain ⟨a, f⟩ := hd
      simp [checkAfter, ih h]

lemma checkAfter_eq_true {self : Nat} {post : List (Nat × FuncName)}
    (h : ∀ x ∈ post, x = (self, FuncName.upgrade)) :
    checkAfter self post = true := by
  induction post with
  | nil => rfl
  | cons hd tl ih =>
    have hh := h hd (List.mem_cons_self hd tl)
    obtain ⟨a, f⟩ := hd
    obtain ⟨ha, hf⟩ := Prod.mk.injEq .. ▸ hh
    subst ha; subst hf
    simp [checkAfter, ih (fun x hx => h x (List.mem_cons_of_mem _ hx))]

lemma upgradeStackOk_append_invoke {self : Nat} {pre post : List (Nat × FuncName)}
    (hpre : (self, FuncName.invoke) ∉ pre) :
    upgradeStackOk self (pre ++ (self, FuncName.invoke) :: post) = checkAfter self post := by
  induction pre with
  | nil => simp [upgradeStackOk]
  | cons hd tl ih =>
    obtain ⟨a, f⟩ := hd
    have hne : ¬ (a = self ∧ f = FuncName.invoke) := by
      intro ⟨h1, h2⟩
      exact hpre (by simp [h1, h2])
    have hcond : (a == self && f == FuncName.invoke) = false := by
      by_cases ha : a = self
      · have hf : f ≠ FuncName.invoke := fun hf => hne ⟨ha, hf⟩
        simp [ha, hf]
      · simp [ha]
    have hpre2 : (self, FuncName.invoke) ∉ tl := fun hx => hpre (List.mem_cons_of_mem _ hx)
    simp only [List.cons_append, upgradeStackOk, hcond]
    simpa using ih hpre2

/-- C2.  Upgrade re-entrancy rule: after the read-only check, `upgrade_actor`
scans the ancestor stack for the first `(self, INVOKE)` frame; if a later
frame is not `(self, UPGRADE)` the call fails `Forbidden` for every call
oracle and parameter handle (hence before parameter loading and before the
transaction); a stack whose frames after the first `(self, INVOKE)` are all
`(self, UPGRADE)` passes the check; and the literal stack
`[(A, INVOKE), (B, INVOKE), (A, INVOKE)]` with `A ≠ B` is rejected. -/
theorem upgrade_actor_stack_rule (call : CallOracle) (k : Kernel)
    (newCodeCid paramsId : Nat) (hro : k.read_only = false) :
    (∀ stack, upgradeStackOk k.actor_id stack = false →
        upgrade_actor call k stack newCodeCid paramsId = (.error (.syscall .forbidden), k))
  ∧ (∀ pre post x, (k.actor_id, FuncName.invoke) ∉ pre → x ∈ post →
        x ≠ (k.actor_id, FuncName.upgrade) →
        upgradeStackOk k.actor_id (pre ++ (k.actor_id, FuncName.invoke) :: post) = false)
  ∧ (∀ pre post, (k.actor_id, FuncName.invoke) ∉ pre →
        (∀ x ∈ post, x = (k.actor_id, FuncName.upgrade)) →
        upgradeStackOk k.actor_id (pre ++ (k.actor_id, FuncName.invoke) :: post) = true)
  ∧ (∀ a b : Nat, a ≠ b →
        upgradeStackOk a [(a, .invoke), (b, .invoke), (a, .invoke)] = false) := by
  refine ⟨?_, ?_, ?_, ?_⟩
  · intro stack hf
    unfold upgrade_actor
    rw [hro]
    simp [hf]
  · intro pre post x hpre hx hne
    rw [upgradeStackOk_append_invoke hpre]
    exact checkAfter_eq_false hx hne
  · intro pre post hpre hall
    rw [upgradeStackOk_append_invoke hpre]
    exact checkAfter_eq_true hall
  · intro a b hab
    have hba : (b == a) = false := by
      simp [beq_eq_false_iff_ne]
      exact fun h => hab h.symm
    simp [upgradeStackOk, checkAfter, hba]

/-- A trivial call oracle used by witnesses: the callee immediately returns
exit code 0 with no value and leaves the state untouched. -/
def call0 : CallOracle := fun _ _ _ _ _ _ _ s => .ok (⟨0, none⟩, s)

/-- A sample call-manager state holding one actor with ID 10. -/
def cmS : CMState := ⟨[(10, ⟨77, 88, 5, 3, some 4⟩)], 1000, []⟩

/-- A sample kernel for actor 10, caller 2, not read-only, empty registry. -/
def kS : Kernel := ⟨2, 10, 1, 0, false, cmS, ⟨[], 4, []⟩⟩

/-- C2 witness: actor 10 attempting an upgrade under the re-entrant stack
`[(10, INVOKE), (11, INVOKE), (10, INVOKE)]` fails `Forbidden`. -/
theorem upgrade_actor_stack_rule_witness :
    upgrade_actor call0 kS [(10, .invoke), (11, .invoke), (10, .invoke)] 7 0 =
      (.error (.syscall .forbidden), kS) := by
  exact (upgrade_actor_stack_rule call0 kS 7 0 rfl).1 _ (by decide)

/-- C1.  Transactional upgrade: once the read-only, call-stack, parameter and
registry-capacity checks pass, `upgrade_actor` runs a single transaction that
reads the actor state (failing `IllegalOperation` when deleted), swaps the
code CID to the new one — keeping state CID, balance and sequence, clearing
the delegated address — before invoking the actor at entrypoint
`Upgrade(old_code_cid)` with value 0, no gas limit, not read-only, the
original caller and the actor itself as receiver; a transaction error rolls
every change back (the resulting kernel is exactly the initial one). -/
theorem upgrade_actor_transaction (call : CallOracle) (k : Kernel)
    (stack : List (Nat × FuncName)) (newCodeCid paramsId : Nat) (params : Option Block)
    (h1 : k.read_only = false)
    (h2 : upgradeStackOk k.actor_id stack = true)
    (h3 : loadParams k paramsId = .ok params)
    (h4 : k.blocks.isFull = false) :
    (getActor k.cm k.actor_id = none →
      upgrade_actor call k stack newCodeCid paramsId =
        (.error (.syscall .illegalOperation), k))
  ∧ (∀ st, getActor k.cm k.actor_id = some st →
      upgrade_actor call k stack newCodeCid paramsId =
        match call k.caller k.actor_id (.upgrade st.code) params 0 none false
            (setActor k.cm k.actor_id ⟨newCodeCid, st.state, st.balance, st.sequence, none⟩) with
        | .error e => (.error e, k)
        | .ok (res, cm2) =>
          match res.value with
          | none => (.ok ⟨NO_DATA_BLOCK_ID, ⟨0, 0⟩, res.exit_code⟩, { k with cm := cm2 })
          | some blk =>
            match k.blocks.putReachable blk with
            | .error e => (.error e, { k with cm := cm2 })
            | .ok (bid, blocks2) =>
                (.ok ⟨bid, blk.stat, res.exit_code⟩, { k with cm := cm2, blocks := blocks2 }))
  ∧ (∀ st e, getActor k.cm k.actor_id = some st →
      call k.caller k.actor_id (.upgrade st.code) params 0 none false
          (setActor k.cm k.actor_id ⟨newCodeCid, st.state, st.balance, st.sequence, none⟩) =
        .error e →
      upgrade_actor call k stack newCodeCid paramsId = (.error e, k)) := by
  have hmain : ∀ st, getActor k.cm k.actor_id = some st →
      upgrade_actor call k stack newCodeCid paramsId =
        match call k.caller k.actor_id (.upgrade st.code) params 0 none false
            (setActor k.cm k.actor_id ⟨newCodeCid, st.state, st.balance, st.sequence, none⟩) with
        | .error e => (.error e, k)
        | .ok (res, cm2) =>
          match res.value with
          | none => (.ok ⟨NO_DATA_BLOCK_ID, ⟨0, 0⟩, res.exit_code⟩, { k with cm := cm2 })
          | some blk =>
            match k.blocks.putReachable blk with
            | .error e => (.error e, { k with cm := cm2 })
            | .ok (bid, blocks2) =>
                (.ok ⟨bid, blk.stat, res.exit_code⟩, { k with cm := cm2, blocks := blocks2 }) := by
    intro st hst
    unfold upgrade_actor
    rw [h1, h2, h3, hst, h4]
    simp
  refine ⟨?_, hmain, ?_⟩
  · intro hnone
    unfold upgrade_actor
    rw [h1, h2, h3, hnone, h4]
    simp
  · intro st e hst hcall
    rw [hmain st hst, hcall]

/-- C1 witness: upgrading actor 10 (state ⟨77, 88, 5, 3, some 4⟩) to code 7
with the trivial oracle commits the swapped state
⟨7, 88, 5, 3, none⟩ and reports exit code 0 with no return block. -/
theorem upgrade_actor_transaction_witness :
    upgrade_actor call0 kS [] 7 0 =
      (.ok ⟨NO_DATA_BLOCK_ID, ⟨0, 0⟩, 0⟩,
        { kS with cm := setActor cmS 10 ⟨7, 88, 5, 3, none⟩ }) := by
  exact (upgrade_actor_transaction call0 kS [] 7 0 none rfl rfl rfl rfl).2.1
    ⟨77, 88, 5, 3, some 4⟩ rfl

/-- A read-only kernel for actor 10 (which is not the Init actor). -/
def kRO : Kernel := ⟨2, 10, 1, 0, true, cmS, ⟨[], 4, []⟩⟩

/-- A trivial call-manager `create_actor` oracle leaving the state unchanged. -/
def cmCreate0 : Nat → Nat → Option Nat → CMState → Except KError CMState :=
  fun _ _ _ s => .ok s

/-- C3 (amended).  Read-only discipline: under `read_only = true`,
`set_root`, `self_destruct`, `upgrade_actor` and `emit_event` fail `ReadOnly`
with no state change; `create_actor` fails `ReadOnly` when invoked by the
Init actor and `Forbidden` (its earlier check) otherwise, in both cases
before any mutation; `send` with non-zero value fails `ReadOnly`; and a send
that does proceed hands the child the effective flag
`self.read_only || flags.read_only`, so a read-only kernel's descendants are
read-only. -/
theorem read_only_guards (k : Kernel) (call : CallOracle)
    (cmCreate : Nat → Nat → Option Nat → CMState → Except KError CMState)
    (cost costD costB ce newRoot codeId newActorId : Nat) (deleg : Option Nat)
    (burn : Bool) (stack : List (Nat × FuncName)) (ncc pid : Nat)
    (hs : List EventEntry) (keys vals : List Nat)
    (recipient method2 pid2 value : Nat) (gl : Option Nat) (fl : Bool)
    (params : Option Block) :
    (k.read_only = true → set_root cost k newRoot = .error (.syscall .readOnly))
  ∧ (k.read_only = true →
      self_destruct costD costB k burn = .error (.syscall .readOnly))
  ∧ (k.read_only = true →
      upgrade_actor call k stack ncc pid = (.error (.syscall .readOnly), k))
  ∧ (k.read_only = true → emit_event ce k hs keys vals = .error (.syscall .readOnly))
  ∧ (k.read_only = true → k.actor_id = INIT_ACTOR_ID →
      create_actor cmCreate k codeId newActorId deleg = .error (.syscall .readOnly))
  ∧ (k.read_only = true → k.actor_id ≠ INIT_ACTOR_ID →
      create_actor cmCreate k codeId newActorId deleg = .error (.syscall .forbidden))
  ∧ (k.read_only = true → value ≠ 0 →
      send call k recipient method2 pid2 value gl fl = (.error (.syscall .readOnly), k))
  ∧ (k.read_only = true → (k.read_only || fl) = true)
  ∧ (loadParams k pid2 = .ok params → k.blocks.isFull = false →
      ¬ ((k.read_only || fl) = true ∧ value ≠ 0) →
      send call k recipient method2 pid2 value gl fl =
        match call k.actor_id recipient (.invoke method2) params value gl
            (k.read_only || fl) k.cm with
        | .error e => (.error e, k)
        | .ok (res, cm2) =>
          match res.value with
          | some blk =>
            match k.blocks.putReachable blk with
            | .error _ => (.error .fatal, { k with cm := cm2 })
            | .ok (bid, blocks2) =>
                (.ok ⟨bid, blk.stat, res.exit_code⟩, { k with cm := cm2, blocks := blocks2 })
          | none => (.ok ⟨0, ⟨0, 0⟩, res.exit_code⟩, { k with cm := cm2 })) := by
  refine ⟨?_, ?_, ?_, ?_, ?_, ?_, ?_, ?_, ?_⟩
  · intro h; unfold set_root; rw [h]; rfl
  · intro h; unfold self_destruct; rw [h]; rfl
  · intro h; unfold upgrade_actor; rw [h]; rfl
  · intro h; unfold emit_event; rw [h]; rfl
  · intro h hinit; unfold create_actor; rw [h, if_neg (by simp [hinit])]; rfl
  · intro h hninit; unfold create_actor; rw [if_pos hninit]
  · intro h hv
    unfold send
    rw [if_pos ⟨by rw [h]; rfl, hv⟩]
  · intro h; rw [h]; rfl
  · intro hp hf hv
    unfold send
    rw [if_neg hv, hp, hf]
    simp

/-- C3 counterexample: a read-only kernel whose actor is not the Init actor
gets `Forbidden`, not `ReadOnly`, from `create_actor`, refuting the claim
that all six operations fail `ReadOnly` under a read-only kernel. -/
theorem read_only_guards_counterexample :
    kRO.read_only = true ∧ kRO.actor_id ≠ INIT_ACTOR_ID ∧
    create_actor cmCreate0 kRO 50 42 none = .error (.syscall .forbidden) ∧
    create_actor cmCreate0 kRO 50 42 none ≠ .error (.syscall .readOnly) := by
  exact ⟨rfl, by decide, rfl, by decide⟩

/-- C3 witness: the literal spec scenario — a read-only kernel sending
value 1 with no gas limit and empty flags gets a `ReadOnly` error. -/
theorem read_only_guards_witness :
    send call0 kRO 1 1 0 1 none false = (.error (.syscall .readOnly), kRO) := by
  exact (read_only_guards kRO call0 cmCreate0 0 0 0 0 0 0 0 none false [] 0 0 [] [] []
    1 1 0 1 none false none).2.2.2.2.2.2.1 rfl (by decide)

lemma processHeaders_trivial_step (rest : List EventEntry) :
    processHeaders [] [] (⟨0, 0x55, 0, 0⟩ :: rest) 0 0 =
      match processHeaders [] [] rest 0 0 with
      | .error e => .error e
      | .ok (es, ko, vo) => .ok (⟨0, [], 0x55, []⟩ :: es, ko, vo) := by
  rfl

lemma processHeaders_rep_bad (n : Nat) :
    processHeaders [] [] (List.replicate n ⟨0, 0x55, 0, 0⟩ ++ [⟨0, 0x55, 32, 0⟩]) 0 0 =
      .error (.syscall .limitExceeded) := by
  induction n with
  | zero => decide
  | succ m ih =>
    rw [List.replicate_succ, List.cons_append, processHeaders_trivial_step, ih]

set_option maxRecDepth 4000 in
/-- C5.  Event limits: beyond 255 headers or 8192 total value bytes the call
fails `LimitExceeded`; a header with a key longer than 31 bytes fails
`LimitExceeded`, while a header value length above 8192 fails
`IllegalArgument` (the overflow precondition); and the three literal
scenarios — 256 entries, 255 entries one of which has `key_len = 32`, and
values totalling 8193 bytes — each yield `LimitExceeded`. -/
theorem emit_event_limits (k : Kernel) (cost : Nat) (headers : List EventEntry)
    (keys vals : List Nat) (hro : k.read_only = false) (hgas : cost ≤ k.cm.gas) :
    (headers.length > 255 →
      emit_event cost k headers keys vals = .error (.syscall .limitExceeded))
  ∧ (headers.length ≤ 255 → vals.length > 8192 →
      emit_event cost k headers keys vals = .error (.syscall .limitExceeded))
  ∧ (∀ h rest ko vo, eventFlagsValid h.flags = true → h.key_len > 31 →
      processHeaders keys vals (h :: rest) ko vo = .error (.syscall .limitExceeded))
  ∧ (∀ h rest ko vo, eventFlagsValid h.flags = true → h.key_len ≤ 31 → h.val_len > 8192 →
      processHeaders keys vals (h :: rest) ko vo = .error (.syscall .illegalArgument))
  ∧ emit_event 0 kS (List.replicate 256 ⟨0, 0x55, 0, 0⟩) [] [] =
      .error (.syscall .limitExceeded)
  ∧ emit_event 0 kS (List.replicate 254 ⟨0, 0x55, 0, 0⟩ ++ [⟨0, 0x55, 32, 0⟩]) [] [] =
      .error (.syscall .limitExceeded)
  ∧ emit_event 0 kS [] [] (List.replicate 8193 0) = .error (.syscall .limitExceeded) := by
  have g1 : ∀ (k2 : Kernel) (cost2 : Nat) (headers2 : List EventEntry)
      (keys2 vals2 : List Nat), k2.read_only = false → cost2 ≤ k2.cm.gas →
      headers2.length > 255 →
      emit_event cost2 k2 headers2 keys2 vals2 = .error (.syscall .limitExceeded) := by
    intro k2 cost2 headers2 keys2 vals2 hro2 hgas2 hlen2
    unfold emit_event
    rw [hro2]
    simp only [chargeGas, if_pos hgas2]
    rw [if_pos hlen2]
    rfl
  have g2 : ∀ (k2 : Kernel) (cost2 : Nat) (headers2 : List EventEntry)
      (keys2 vals2 : List Nat), k2.read_only = false → cost2 ≤ k2.cm.gas →
      headers2.length ≤ 255 → vals2.length > 8192 →
      emit_event cost2 k2 headers2 keys2 vals2 = .error (.syscall .limitExceeded) := by
    intro k2 cost2 headers2 keys2 vals2 hro2 hgas2 hlen2 hvals2
    unfold emit_event
    rw [hro2]
    simp only [chargeGas, if_pos hgas2]
    rw [if_neg (show ¬ headers2.length > 255 from by omega), if_pos hvals2]
    rfl
  have g3 : ∀ (k2 : Kernel) (cost2 : Nat) (headers2 : List EventEntry)
      (keys2 vals2 : List Nat) (e : KError), k2.read_only = false → cost2 ≤ k2.cm.gas →
      ¬ headers2.length > 255 → ¬ vals2.length > 8192 → isUtf8 keys2 = true →
      processHeaders keys2 vals2 headers2 0 0 = .error e →
      emit_event cost2 k2 headers2 keys2 vals2 = .error e := by
    intro k2 cost2 headers2 keys2 vals2 e hro2 hgas2 hlen2 hvals2 hutf hph
    unfold emit_event
    rw [hro2]
    simp only [chargeGas, if_pos hgas2]
    rw [if_neg hlen2, if_neg hvals2, if_neg (not_not_intro hutf), hph]
    rfl
  have c5 : emit_event 0 kS (List.replicate 256 ⟨0, 0x55, 0, 0⟩) [] [] =
      .error (.syscall .limitExceeded) :=
    g1 kS 0 (List.replicate 256 ⟨0, 0x55, 0, 0⟩) [] [] rfl (by decide)
      (by rw [List.length_replicate]; decide)
  have c6 : emit_event 0 kS (List.replicate 254 ⟨0, 0x55, 0, 0⟩ ++ [⟨0, 0x55, 32, 0⟩]) [] [] =
      .error (.syscall .limitExceeded) :=
    g3 kS 0 (List.replicate 254 ⟨0, 0x55, 0, 0⟩ ++ [⟨0, 0x55, 32, 0⟩]) [] []
      (.syscall .limitExceeded) rfl (by decide)
      (by rw [List.length_append, List.length_replicate]; decide)
      (by decide) rfl (processHeaders_rep_bad 254)
  have c7 : emit_event 0 kS [] [] (List.replicate 8193 0) =
      .error (.syscall .limitExceeded) :=
    g2 kS 0 [] [] (List.replicate 8193 0) rfl (by decide) (by decide)
      (by rw [List.length_replicate]; decide)
  refine ⟨g1 k cost headers keys vals hro hgas, g2 k cost headers keys vals hro hgas,
    ?_, ?_, c5, c6, c7⟩
  · intro h rest ko vo hflags hkey
    simp only [processHeaders]
    rw [if_neg (not_not_intro hflags), if_pos hkey]
  · intro h rest ko vo hflags hkey hval
    simp only [processHeaders]
    rw [if_neg (not_not_intro hflags), if_neg (show ¬ h.key_len > 31 from by omega),
      if_pos hval]

set_option maxRecDepth 4000 in
/-- C5 witness: the 255-entry scenario with one 32-byte key. -/
theorem emit_event_limits_witness :
    emit_event 0 kS (List.replicate 254 ⟨0, 0x55, 0, 0⟩ ++ [⟨0, 0x55, 32, 0⟩]) [] [] =
      .error (.syscall .limitExceeded) := by
  exact (emit_event_limits kS 0 [] [] [] rfl (by decide)).2.2.2.2.2.1

lemma preCharge_ok_items (costFn : Nat → Nat) :
    ∀ (vis : List Nat) (s : CMState) (items : List Nat) (s2 : CMState),
      preCharge costFn vis s = .ok (items, s2) → items = vis := by
  intro vis
  induction vis with
  | nil =>
    intro s items s2 h
    simp only [preCharge, Except.ok.injEq, Prod.mk.injEq] at h
    exact h.1.symm
  | cons vi rest ih =>
    intro s items s2 h
    cases hc : chargeGas s (costFn vi) with
    | none =>
      simp only [preCharge, hc] at h
      exact Except.noConfusion h
    | some s1 =>
      cases hr : preCharge costFn rest s1 with
      | error e =>
        simp only [preCharge, hc, hr] at h
        exact Except.noConfusion h
      | ok p =>
        obtain ⟨items2, s3⟩ := p
        simp only [preCharge, hc, hr, Except.ok.injEq, Prod.mk.injEq] at h
        rw [← h.1, ih s1 items2 s3 hr]

lemma preCharge_err (costFn : Nat → Nat) :
    ∀ (vis : List Nat) (s : CMState) (e : KError),
      preCharge costFn vis s = .error e → e = .outOfGas := by
  intro vis
  induction vis with
  | nil => intro s e h; simp [preCharge] at h
  | cons vi rest ih =>
    intro s e h
    cases hc : chargeGas s (costFn vi) with
    | none =>
      simp only [preCharge, hc, Except.error.injEq] at h
      exact h.symm
    | some s1 =>
      cases hr : preCharge costFn rest s1 with
      | error e2 =>
        simp only [preCharge, hc, hr, Except.error.injEq] at h
        rw [← h]
        exact ih s1 e2 hr
      | ok p =>
        obtain ⟨i2, s3⟩ := p
        simp only [preCharge, hc, hr] at h
        exact Except.noConfusion h

/-- C7.  `batch_verify_seals` pre-charges the seal-verify gas for every entry
before any verification work, so the only error it can return is gas
exhaustion during the pre-charge (independently of the verification oracle);
on success the output has the length of the input, its i-th element is the
outcome of verifying the i-th input, and both a caught panic and a library
failure verify as `false` rather than aborting. -/
theorem batch_verify_seals_precharge (verify : Nat → SealOutcome) (costFn : Nat → Nat)
    (k : Kernel) (vis : List Nat) :
    (∀ e, batch_verify_seals verify costFn k vis = .error e →
        e = .outOfGas ∧
        ∀ verify2, batch_verify_seals verify2 costFn k vis = .error .outOfGas)
  ∧ (∀ out k2, batch_verify_seals verify costFn k vis = .ok (out, k2) →
        out = vis.map (fun vi => sealOutcomeToBool (verify vi)) ∧
        out.length = vis.length ∧
        ∀ i (hi : i < vis.length) (ho : i < out.length),
          out.get ⟨i, ho⟩ = sealOutcomeToBool (verify (vis.get ⟨i, hi⟩)))
  ∧ sealOutcomeToBool .panic = false ∧ sealOutcomeToBool .libError = false
  ∧ (∀ b, sealOutcomeToBool (.ok b) = b) := by
  refine ⟨?_, ?_, rfl, rfl, fun b => rfl⟩
  · intro e he
    unfold batch_verify_seals at he
    cases hpc : preCharge costFn vis k.cm with
    | error e2 =>
      rw [hpc] at he
      cases he
      refine ⟨preCharge_err costFn vis k.cm e hpc, ?_⟩
      intro verify2
      unfold batch_verify_seals
      rw [hpc, preCharge_err costFn vis k.cm e hpc]
    | ok p => obtain ⟨items, cm1⟩ := p; rw [hpc] at he; cases he
  · intro out k2 hok
    unfold batch_verify_seals at hok
    cases hpc : preCharge costFn vis k.cm with
    | error e2 => rw [hpc] at hok; cases hok
    | ok p =>
      obtain ⟨items, cm1⟩ := p
      rw [hpc] at hok
      have hitems := preCharge_ok_items costFn vis k.cm items cm1 hpc
      subst hitems
      cases hok
      refine ⟨rfl, by simp, ?_⟩
      intro i hi ho
      simp [List.getElem_map]

/-- A sample verification oracle: input 0 panics, input 1 verifies true,
anything else is a library failure. -/
def verifyW : Nat → SealOutcome :=
  fun n => if n = 0 then .panic else if n = 1 then .ok true else .libError

/-- C7 witness: on inputs `[0, 1, 2]` (panic, true, library failure) with unit
costs and 1000 gas, the batch returns `[false, true, false]` in order. -/
theorem batch_verify_seals_precharge_witness :
    [false, true, false] = [0, 1, 2].map (fun vi => sealOutcomeToBool (verifyW vi)) ∧
    sealOutcomeToBool .panic = false := by
  have h := (batch_verify_seals_precharge verifyW (fun _ => 1) kS [0, 1, 2]).2.1
    [false, true, false]
    ⟨2, 10, 1, 0, false, ⟨[(10, ⟨77, 88, 5, 3, some 4⟩)], 997, []⟩, ⟨[], 4, []⟩⟩
    (by decide)
  exact ⟨h.1, rfl⟩

lemma slicePlaintexts_err (concat : List Nat) :
    ∀ (lens : List Nat) (off : Nat) (e : KError),
      slicePlaintexts concat off lens = .error e → e = .syscall .illegalArgument := by
  intro lens
  induction lens with
  | nil => intro off e h; simp [slicePlaintexts] at h
  | cons len rest ih =>
    intro off e h
    by_cases hov : off + len > USIZE_MAX
    · simp only [slicePlaintexts, if_pos hov, Except.error.injEq] at h
      exact h.symm
    · by_cases hin : off + len ≤ concat.length
      · cases hr : slicePlaintexts concat (off + len) rest with
        | error e2 =>
          simp only [slicePlaintexts, if_neg hov, if_pos hin, hr, Except.error.injEq] at h
          rw [← h]
          exact ih (off + len) e2 hr
        | ok p =>
          obtain ⟨ps, fin⟩ := p
          simp only [slicePlaintexts, if_neg hov, if_pos hin, hr] at h
          exact Except.noConfusion h
      · simp only [slicePlaintexts, if_neg hov, if_neg hin, Except.error.injEq] at h
        exact h.symm

/-- C8.  `verify_bls_aggregate` error discipline: a public-key/plaintext-length
count mismatch is `IllegalArgument`; an overflowing offset accumulation or a
span beyond the concatenated buffer is `IllegalArgument` (every slicing error
carries that number); spans that do not exactly exhaust the buffer are
`IllegalArgument`; and when all checks pass (and the gas charge succeeds) the
operation returns a boolean, mapping a library error to `false` instead of
propagating it. -/
theorem verify_bls_aggregate_errors (cost : Nat)
    (lib : List Nat → List (List Nat) → List (List Nat) → Except Unit Bool)
    (k : Kernel) (aggSig : List Nat) (pubKeys : List (List Nat))
    (concat : List Nat) (lens : List Nat) :
    (pubKeys.length ≠ lens.length →
      verify_bls_aggregate cost lib k aggSig pubKeys concat lens =
        .error (.syscall .illegalArgument))
  ∧ (∀ off len rest, off + len > USIZE_MAX →
      slicePlaintexts concat off (len :: rest) = .error (.syscall .illegalArgument))
  ∧ (∀ off len rest, ¬ off + len > USIZE_MAX → ¬ off + len ≤ concat.length →
      slicePlaintexts concat off (len :: rest) = .error (.syscall .illegalArgument))
  ∧ (∀ e, slicePlaintexts concat 0 lens = .error e → e = .syscall .illegalArgument)
  ∧ (pubKeys.length = lens.length → cost ≤ k.cm.gas →
      ∀ ps off, slicePlaintexts concat 0 lens = .ok (ps, off) → off = concat.length →
      verify_bls_aggregate cost lib k aggSig pubKeys concat lens =
        .ok (match lib aggSig pubKeys ps with | .ok b => b | .error _ => false,
             { k with cm := { k.cm with gas := k.cm.gas - cost } }))
  ∧ (pubKeys.length = lens.length → cost ≤ k.cm.gas →
      ∀ ps off, slicePlaintexts concat 0 lens = .ok (ps, off) → off ≠ concat.length →
      verify_bls_aggregate cost lib k aggSig pubKeys concat lens =
        .error (.syscall .illegalArgument)) := by
  refine ⟨?_, ?_, ?_, slicePlaintexts_err concat lens 0, ?_, ?_⟩
  · intro hne
    unfold verify_bls_aggregate
    rw [if_pos hne]
  · intro off len rest hov
    simp only [slicePlaintexts, if_pos hov]
  · intro off len rest hov hin
    simp only [slicePlaintexts, if_neg hov, if_neg hin]
  · intro heq hgas ps off hsl hoff
    unfold verify_bls_aggregate
    rw [if_neg (not_not_intro heq)]
    simp only [chargeGas, if_pos hgas]
    rw [hsl]
    subst hoff
    simp
  · intro heq hgas ps off hsl hoff
    unfold verify_bls_aggregate
    rw [if_neg (not_not_intro heq)]
    simp only [chargeGas, if_pos hgas]
    rw [hsl]
    simp [hoff]

/-- A sample BLS library oracle that always reports a library error. -/
def libErr : List Nat → List (List Nat) → List (List Nat) → Except Unit Bool :=
  fun _ _ _ => .error ()

/-- C8 witness: two keys with plaintext lengths `[2, 1]` over a 3-byte buffer
pass all checks, and the failing library is swallowed into `false`. -/
theorem verify_bls_aggregate_errors_witness :
    verify_bls_aggregate 1 libErr kS [9] [[1], [2]] [5, 6, 7] [2, 1] =
      .ok (false, { kS with cm := { kS.cm with gas := kS.cm.gas - 1 } }) := by
  exact (verify_bls_aggregate_errors 1 libErr kS [9] [[1], [2]] [5, 6, 7] [2, 1]).2.2.2.2.1
    rfl (by decide) [[5, 6], [7]] 3 (by decide) rfl

/-- C9.  With valid hash parameters (blake2b-256, length 32) and a valid
handle, the later digest-length `IllegalCid` branch of `block_link` is
unreachable — the blake2b-256 digest is exactly 32 bytes — so the operation
can only fail with gas exhaustion or a fatal store-write error, never a
second `IllegalCid`. -/
theorem block_link_no_second_illegal_cid (digest : List Nat → List Nat)
    (mkCid : Nat → List Nat → Nat) (putOk : Bool) (costFn : Nat → Nat)
    (k : Kernel) (id : Nat) (blk : Block)
    (hdig : ∀ d, (digest d).length = 32)
    (hid : k.blocks.get id = .ok blk) :
    (∀ e, block_link digest mkCid putOk costFn k id BLAKE2B_256 32 = .error e →
        e = .outOfGas ∨ e = .fatal)
  ∧ block_link digest mkCid putOk costFn k id BLAKE2B_256 32 ≠
      .error (.syscall .illegalCid) := by
  have key : ∀ e, block_link digest mkCid putOk costFn k id BLAKE2B_256 32 = .error e →
      e = .outOfGas ∨ e = .fatal := by
    intro e he
    unfold block_link at he
    rw [if_neg (show ¬ (BLAKE2B_256 ≠ BLAKE2B_256 ∨ (32 : Nat) ≠ 32) from by simp)] at he
    rw [hid] at he
    by_cases hg : costFn blk.data.length ≤ k.cm.gas
    · simp only [chargeGas, if_pos hg, hdig] at he
      rw [if_neg (show ¬ (32 : Nat) < 32 from by omega)] at he
      cases hp : putOk with
      | false =>
        rw [hp, if_pos rfl] at he
        injection he with h2
        exact Or.inr h2.symm
      | true =>
        rw [hp, if_neg (show ¬ true = false from by simp)] at he
        exact Except.noConfusion he
    · simp only [chargeGas, if_neg hg] at he
      injection he with h2
      exact Or.inl h2.symm
  refine ⟨key, ?_⟩
  intro hcontra
  rcases key _ hcontra with h | h <;> exact KError.noConfusion h

/-- A sample digest oracle producing a 32-byte digest of zeros. -/
def digest32 : List Nat → List Nat := fun _ => List.replicate 32 0

/-- A sample CID builder pairing codec and digest injectively enough for the
witness. -/
def mkCid0 : Nat → List Nat → Nat := fun c h => c * 1000 + h.length

/-- A kernel whose registry holds one 10-byte raw block under handle 1. -/
def kB : Kernel :=
  ⟨2, 5, 1, 0, false, ⟨[(5, ⟨77, 88, 10, 3, some 4⟩)], 1000, []⟩,
    ⟨[⟨0x55, List.replicate 10 0, []⟩], 5, []⟩⟩

/-- C9 witness: linking handle 1 of `kB` with blake2b-256/32 does not raise
the second `IllegalCid`. -/
theorem block_link_no_second_illegal_cid_witness :
    block_link digest32 mkCid0 true (fun _ => 1) kB 1 BLAKE2B_256 32 ≠
      .error (.syscall .illegalCid) := by
  exact (block_link_no_second_illegal_cid digest32 mkCid0 true (fun _ => 1) kB 1
    ⟨0x55, List.replicate 10 0, []⟩
    (fun d => by simp [digest32]) rfl).2

lemma isCharBoundary_ascii {keys : List Nat} (hascii : ∀ b ∈ keys, b < 0x80)
    {i : Nat} (hi : i ≤ keys.length) : isCharBoundary keys i = true := by
  unfold isCharBoundary
  by_cases h0 : i = 0
  · rw [if_pos h0]
  · rw [if_neg h0]
    rcases Nat.lt_or_ge i keys.length with hlt | hge
    · rw [List.get?_eq_get hlt]
      have hb : keys.get ⟨i, hlt⟩ < 0x80 := hascii _ (List.get_mem keys i hlt)
      have hb2 : keys[i] < 0x80 := hb
      simp [contByte]
      omega
    · have hl : i = keys.length := by omega
      rw [List.get?_eq_none.mpr (by omega)]
      simp [hl]

/-- C10.  Event keys are sliced out of the validated UTF-8 `keys` string by
byte range through `str::get`, so a header whose key range is entirely inside
the buffer but whose start or end falls inside a multi-byte character fails
`IllegalArgument`; keys consisting only of single-byte (ASCII) characters are
never affected — for them the slice succeeds whenever it is in bounds.  The
two-byte key `[0xC3, 0xA9]` split at byte 1 is a concrete instance. -/
theorem emit_event_utf8_key_boundaries (keys vals : List Nat) :
    (∀ h rest ko vo, eventFlagsValid h.flags = true →
        (h : EventEntry).key_len ≤ 31 → h.val_len ≤ 8192 →
        ko + h.key_len ≤ keys.length →
        (isCharBoundary keys ko = false ∨ isCharBoundary keys (ko + h.key_len) = false) →
        processHeaders keys vals (h :: rest) ko vo = .error (.syscall .illegalArgument))
  ∧ ((∀ b ∈ keys, b < 0x80) → ∀ a c, a ≤ c → c ≤ keys.length →
        strGet keys a c = some ((keys.drop a).take (c - a)))
  ∧ isUtf8 [0xC3, 0xA9] = true
  ∧ emit_event 0 kS [⟨0, 0x55, 1, 0⟩] [0xC3, 0xA9] [] =
      .error (.syscall .illegalArgument) := by
  refine ⟨?_, ?_, by decide, by decide⟩
  · intro h rest ko vo hflags hkey hval hin hbad
    simp only [processHeaders]
    rw [if_neg (not_not_intro hflags),
      if_neg (show ¬ h.key_len > 31 from by omega),
      if_neg (show ¬ h.val_len > 8192 from by omega)]
    have hnone : strGet keys ko (ko + h.key_len) = none := by
      unfold strGet
      rw [if_neg]
      intro ⟨h1, h2, h3⟩
      rcases hbad with hb | hb
      · rw [h2] at hb; exact Bool.noConfusion hb
      · rw [h3] at hb; exact Bool.noConfusion hb
    rw [hnone]
  · intro hascii a c hac hc
    unfold strGet
    rw [if_pos ⟨hac, isCharBoundary_ascii hascii (le_trans hac hc),
      isCharBoundary_ascii hascii hc⟩]

/-- C10 witness: a header with `key_len = 1` over the two-byte UTF-8 key
`"é" = [0xC3, 0xA9]` has an in-bounds range but a mid-character end, so the
per-header loop fails `IllegalArgument`. -/
theorem emit_event_utf8_key_boundaries_witness :
    processHeaders [0xC3, 0xA9] [] [⟨0, 0x55, 1, 0⟩] 0 0 =
      .error (.syscall .illegalArgument) := by
  exact (emit_event_utf8_key_boundaries [0xC3, 0xA9] []).1 ⟨0, 0x55, 1, 0⟩ [] 0 0
    rfl (by decide) (by decide) (by decide) (Or.inr (by decide))

lemma trailingZeros_odd {n : Nat} (h : n % 2 = 1) : trailingZeros n = 0 := by
  rw [trailingZeros]
  rw [dif_neg (by omega : ¬ n = 0)]
  rw [if_pos h]

lemma trailingZeros_even {n : Nat} (h0 : n ≠ 0) (h : n % 2 = 0) :
    trailingZeros n = trailingZeros (n / 2) + 1 := by
  rw [trailingZeros]
  rw [dif_neg h0]
  rw [if_neg (by omega : ¬ n % 2 = 1)]

lemma tz_spec : ∀ n, n ≠ 0 →
    n % 2 ^ trailingZeros n = 0 ∧ (n / 2 ^ trailingZeros n) % 2 = 1 := by
  intro n
  induction n using Nat.strong_induction_on with
  | _ n ih =>
    intro h0
    rcases Nat.even_or_odd n with he | ho
    · have hmod : n % 2 = 0 := Nat.even_iff.mp he
      have hhalf : n / 2 ≠ 0 := by omega
      have hlt : n / 2 < n := Nat.div_lt_self (Nat.pos_of_ne_zero h0) (by omega)
      obtain ⟨ih1, ih2⟩ := ih (n / 2) hlt hhalf
      rw [trailingZeros_even h0 hmod]
      constructor
      · rw [pow_succ]
        have h2 : n = 2 * (n / 2) := by omega
        calc n % (2 ^ trailingZeros (n / 2) * 2)
            = (2 * (n / 2)) % (2 * 2 ^ trailingZeros (n / 2)) := by
              rw [← h2]; ring_nf
          _ = 2 * ((n / 2) % 2 ^ trailingZeros (n / 2)) := Nat.mul_mod_mul_left 2 _ _
          _ = 0 := by rw [ih1]
      · rw [pow_succ]
        rw [show 2 ^ trailingZeros (n / 2) * 2 = 2 * 2 ^ trailingZeros (n / 2) from by ring]
        rw [← Nat.div_div_eq_div_mul]
        exact ih2
    · have hmod : n % 2 = 1 := Nat.odd_iff.mp ho
      rw [trailingZeros_odd hmod]
      exact ⟨by omega, by simpa using hmod⟩

lemma tz_decomp {n : Nat} (h0 : n ≠ 0) :
    ∃ a, n = 2 ^ (trailingZeros n + 1) * a + 2 ^ trailingZeros n := by
  obtain ⟨h1, h2⟩ := tz_spec n h0
  refine ⟨n / 2 ^ trailingZeros n / 2, ?_⟩
  have hm : n = 2 ^ trailingZeros n * (n / 2 ^ trailingZeros n) :=
    (Nat.mul_div_cancel' (Nat.dvd_of_mod_eq_zero h1)).symm
  have hodd : n / 2 ^ trailingZeros n = 2 * (n / 2 ^ trailingZeros n / 2) + 1 := by omega
  calc n = 2 ^ trailingZeros n * (n / 2 ^ trailingZeros n) := hm
    _ = 2 ^ trailingZeros n * (2 * (n / 2 ^ trailingZeros n / 2) + 1) := by rw [← hodd]
    _ = 2 ^ (trailingZeros n + 1) * (n / 2 ^ trailingZeros n / 2) + 2 ^ trailingZeros n := by
        rw [pow_succ]; ring

lemma two_mul_xor (x y : Nat) : (2 * x) ^^^ (2 * y) = 2 * (x ^^^ y) := by
  have h := Nat.xor_bit false x false y
  simpa [Nat.bit] using h

lemma odd_xor_one (a : Nat) : (2 * a + 1) ^^^ 1 = 2 * a := by
  have h := Nat.xor_bit true a true 0
  simpa [Nat.bit] using h

lemma xor_lowbit : ∀ z a : Nat, (2 ^ (z + 1) * a + 2 ^ z) ^^^ 2 ^ z = 2 ^ (z + 1) * a := by
  intro z
  induction z with
  | zero =>
    intro a
    simpa using odd_xor_one a
  | succ z ih =>
    intro a
    calc (2 ^ (z + 1 + 1) * a + 2 ^ (z + 1)) ^^^ 2 ^ (z + 1)
        = (2 * (2 ^ (z + 1) * a + 2 ^ z)) ^^^ (2 * 2 ^ z) := by
          congr 1
          · rw [pow_succ, pow_succ]; ring
          · rw [pow_succ]; ring
      _ = 2 * ((2 ^ (z + 1) * a + 2 ^ z) ^^^ 2 ^ z) := two_mul_xor _ _
      _ = 2 * (2 ^ (z + 1) * a) := by rw [ih a]
      _ = 2 ^ (z + 1 + 1) * a := by rw [pow_succ 2 (z + 1)]; ring

lemma popCount_two_mul (m : Nat) : popCount (2 * m) = popCount m := by
  by_cases h : m = 0
  · subst h; rfl
  · rw [popCount]
    rw [if_neg (by omega : ¬ 2 * m = 0)]
    have : 2 * m % 2 = 0 := by omega
    rw [this]
    have : 2 * m / 2 = m := by omega
    rw [this]
    omega

lemma popCount_two_mul_add_one (m : Nat) : popCount (2 * m + 1) = popCount m + 1 := by
  rw [popCount]
  rw [if_neg (by omega : ¬ 2 * m + 1 = 0)]
  have h1 : (2 * m + 1) % 2 = 1 := by omega
  have h2 : (2 * m + 1) / 2 = m := by omega
  rw [h1, h2]
  omega

lemma popCount_decomp : ∀ z a : Nat,
    popCount (2 ^ (z + 1) * a + 2 ^ z) = popCount (2 ^ (z + 1) * a) + 1 := by
  intro z
  induction z with
  | zero =>
    intro a
    have h1 : 2 ^ (0 + 1) * a + 2 ^ 0 = 2 * a + 1 := by ring_nf
    have h2 : 2 ^ (0 + 1) * a = 2 * a := by ring_nf
    rw [h1, h2, popCount_two_mul_add_one, popCount_two_mul]
  | succ z ih =>
    intro a
    have h1 : 2 ^ (z + 2) * a + 2 ^ (z + 1) = 2 * (2 ^ (z + 1) * a + 2 ^ z) := by
      rw [pow_succ, pow_succ]; ring
    have h2 : 2 ^ (z + 2) * a = 2 * (2 ^ (z + 1) * a) := by
      rw [pow_succ]; ring
    rw [h1, h2, popCount_two_mul, popCount_two_mul, ih a]

lemma le_tz_of_dvd : ∀ k n : Nat, n ≠ 0 → n % 2 ^ k = 0 → k ≤ trailingZeros n := by
  intro k
  induction k with
  | zero => intro n _ _; omega
  | succ k ih =>
    intro n h0 hdvd
    obtain ⟨t, ht⟩ := Nat.dvd_of_mod_eq_zero hdvd
    have hpk : 0 < 2 ^ k := Nat.two_pow_pos k
    have hn2 : n = 2 * (2 ^ k * t) := by rw [ht, pow_succ]; ring
    have hmod2 : n % 2 = 0 := by omega
    have ht0 : t ≠ 0 := by
      intro h; rw [h] at hn2; omega
    have hhalf : n / 2 = 2 ^ k * t := by omega
    have hhalf0 : n / 2 ≠ 0 := by
      rw [hhalf]
      exact Nat.mul_ne_zero (by omega) ht0
    rw [trailingZeros_even h0 hmod2]
    have hm : (n / 2) % 2 ^ k = 0 := by
      rw [hhalf]
      simp [Nat.mul_mod_right]
    have := ih (n / 2) hhalf0 hm
    omega

lemma padLoop_spec : ∀ t : Nat,
    (padLoop (popCount t) t).1.sum = t ∧
    (padLoop (popCount t) t).2 = t ∧
    (padLoop (popCount t) t).1.length = popCount t ∧
    List.Chain' (· < ·) (padLoop (popCount t) t).1 ∧
    (∀ q ∈ (padLoop (popCount t) t).1, ∃ i, q = 2 ^ i) ∧
    (∀ q ∈ (padLoop (popCount t) t).1, 2 ^ trailingZeros t ≤ q) := by
  intro t
  induction t using Nat.strong_induction_on with
  | _ t ih =>
    by_cases h0 : t = 0
    · subst h0
      have hp0 : popCount 0 = 0 := by simp [popCount]
      simp only [hp0]
      refine ⟨rfl, rfl, rfl, List.chain'_nil, ?_, ?_⟩
      · intro q hq; simp [padLoop] at hq
      · intro q hq; simp [padLoop] at hq
    · obtain ⟨a, hdecomp⟩ := tz_decomp h0
      set z := trailingZeros t with hz
      have hzposle : 2 ^ z ≤ t := by rw [hdecomp]; omega
      have hzpos : 0 < 2 ^ z := Nat.two_pow_pos z
      have hxor : t ^^^ 2 ^ z = 2 ^ (z + 1) * a := by
        rw [hdecomp]; exact xor_lowbit z a
      have hpc : popCount t = popCount (2 ^ (z + 1) * a) + 1 := by
        rw [hdecomp]; exact popCount_decomp z a
      set t2 := 2 ^ (z + 1) * a with ht2
      have ht2lt : t2 < t := by omega
      obtain ⟨ihsum, ihsnd, ihlen, ihchain, ihpow, ihlow⟩ := ih t2 ht2lt
      have hstep : padLoop (popCount t) t =
          (2 ^ z :: (padLoop (popCount t2) t2).1,
           2 ^ z + (padLoop (popCount t2) t2).2) := by
        rw [hpc]
        simp only [padLoop]
        rw [← hz, hxor]
      have hlow2 : ∀ q ∈ (padLoop (popCount t2) t2).1, 2 ^ (z + 1) ≤ q := by
        intro q hq
        by_cases ht20 : t2 = 0
        · rw [ht20] at hq
          have hp0 : popCount 0 = 0 := by simp [popCount]
          rw [hp0] at hq
          simp [padLoop] at hq
        · have hdvd : t2 % 2 ^ (z + 1) = 0 := by
            rw [ht2]
            simp [Nat.mul_mod_right]
          have htz2 : z + 1 ≤ trailingZeros t2 := le_tz_of_dvd (z + 1) t2 ht20 hdvd
          have hq2 := ihlow q hq
          calc 2 ^ (z + 1) ≤ 2 ^ trailingZeros t2 := Nat.pow_le_pow_right (by omega) htz2
            _ ≤ q := hq2
      rw [hstep]
      refine ⟨?_, ?_, ?_, ?_, ?_, ?_⟩
      · simp only [List.sum_cons, ihsum]
        omega
      · simp only [ihsnd]
        omega
      · simp only [List.length_cons, ihlen, hpc]
      · rw [List.chain'_cons']
        refine ⟨?_, ihchain⟩
        intro y hy
        have hymem : y ∈ (padLoop (popCount t2) t2).1 := List.mem_of_mem_head? hy
        have hge := hlow2 y hymem
        have h2z : (2 : Nat) ^ z < 2 ^ (z + 1) :=
          Nat.pow_lt_pow_right (by omega) (by omega)
        omega
      · intro q hq
        rcases List.mem_cons.mp hq with h | h
        · exact ⟨z, h⟩
        · exact ihpow q h
      · intro q hq
        rcases List.mem_cons.mp hq with h | h
        · rw [h]
        · have hge := hlow2 q h
          have h2z : (2 : Nat) ^ z ≤ 2 ^ (z + 1) :=
            Nat.pow_le_pow_right (by omega) (by omega)
          omega

/-- C6.  Padding law: for any 64-bit `sum` and non-zero piece size `p`,
`get_required_padding` returns power-of-two pads in strictly ascending order
whose sizes sum to the two's-complement residue `(-sum) mod 2^64 mod p`, with
one pad per set bit of the residue (the pad count is the residue's
pop-count), and its second component equals that same total. -/
theorem get_required_padding_law (sum p : Nat) (h1 : sum < 2 ^ 64) (h2 : 0 < p) :
    ((get_required_padding sum p).1.sum = (((-(sum : Int)) % 2 ^ 64).toNat) % p)
  ∧ ((get_required_padding sum p).2 = (((-(sum : Int)) % 2 ^ 64).toNat) % p)
  ∧ ((get_required_padding sum p).1.length =
      popCount ((((-(sum : Int)) % 2 ^ 64).toNat) % p))
  ∧ List.Chain' (· < ·) (get_required_padding sum p).1
  ∧ (∀ q ∈ (get_required_padding sum p).1, ∃ i, q = 2 ^ i) := by
  have hres : ((2 ^ 64 - sum % 2 ^ 64) % 2 ^ 64) % p =
      (((-(sum : Int)) % 2 ^ 64).toNat) % p := by
    congr 1
    have hmod : sum % 2 ^ 64 = sum := Nat.mod_eq_of_lt h1
    rw [hmod]
    have e1 : (2 : Int) ^ 64 = 18446744073709551616 := by norm_num
    have e2 : (2 : Nat) ^ 64 = 18446744073709551616 := by norm_num
    have h1b : sum < 18446744073709551616 := by omega
    rw [e1, e2]
    omega
  obtain ⟨a1, a2, a3, a4, a5, _⟩ :=
    padLoop_spec ((((-(sum : Int)) % 2 ^ 64).toNat) % p)
  simp only [get_required_padding]
  rw [hres]
  exact ⟨a1, a2, a3, a4, a5⟩

/-- C6 witness: `sum = 100`, `p = 128`: the residue is 28 = 4 + 8 + 16, giving
pads `[4, 8, 16]` (ascending powers of two, pop-count 3) totalling 28. -/
theorem get_required_padding_law_witness :
    ((get_required_padding 100 128).1.sum = (((-(100 : Int)) % 2 ^ 64).toNat) % 128)
  ∧ ((get_required_padding 100 128).2 = (((-(100 : Int)) % 2 ^ 64).toNat) % 128)
  ∧ ((get_required_padding 100 128).1.length =
      popCount ((((-(100 : Int)) % 2 ^ 64).toNat) % 128))
  ∧ List.Chain' (· < ·) (get_required_padding 100 128).1
  ∧ (∀ q ∈ (get_required_padding 100 128).1, ∃ i, q = 2 ^ i) :=
  get_required_padding_law 100 128 (by decide) (by decide)
